import Mathlib

/-!
# A shallow embedding of `component_injector/__init__.py`

The library is a small dependency injector built from:

* a `ComponentStack` (a stack of shared, mutable dict layers mapping a
  component type to a cached instance or to the `UNSET` tombstone),
* a factory table (a dict mapping component types to shared `Factory`
  objects),
* `Context` objects carrying a `(factories, components)` pair, with the
  "current" context held in a `contextvars.ContextVar`, and
* the `Injector` facade: `register`, `register_factory`, `get_component`,
  `get_component_async`, `scope` and `inject`.

Because layer dicts, `Factory` objects and `Context` objects are shared,
mutable Python objects, the embedding models an explicit heap: `Machine`
holds a list of layer dicts (addressed by index), a list of `Factory`
records and a list of context records, together with the value of the
`ContextVar` (`current`).  Dicts are modelled as insertion-ordered
association lists, as in CPython.  Object identity of component instances
is modelled by `Val := Nat`; a producer that constructs a fresh instance
per call draws from the machine's allocation counter `alloc`, so two
distinct constructions yield distinct values.

Python's introspection (`type(component)`, `mro()`, `inspect.isclass`,
return-type annotations) is modelled by a `TypeWorld` giving every
component type its method-resolution order and its class-ness, and by the
caller of `register`/`register_factory` supplying the key type that the
source extracts via introspection.
-/

namespace ComponentInjector

/-- Identity of a Python class object used as a component type. -/
abbrev Ty := Nat

/-- Identity of a Python object used as a component instance. -/
abbrev Val := Nat

/-- The builtin class `type`.  The source constructs `Factory(factory_function,
{type}, ...)`: the set literal contains the *builtin* `type`, not the
parameter `type_`. -/
def tyType : Ty := 0

/-- The ambient universe of class types: `mro` models `type_.mro()` and
`isclass` models `inspect.isclass`. -/
structure TypeWorld where
  mro : Ty → List Ty
  isclass : Ty → Bool

/-- What a registered producer does when called: return a fixed object,
construct a fresh object, or return an awaitable whose awaited result is a
fixed object. -/
inductive ProducerKind where
  | const (v : Val)
  | fresh
  | deferredConst (v : Val)
deriving DecidableEq

/-- The `Factory` dataclass: `factory` (the producer, `None` for `register`),
`resolved_types` (a set of types, modelled as a duplicate-free insertion
ordered list) and `context` (the home scope for persistent caching,
modelled by the index of the context record in the machine heap). -/
structure Factory where
  factory : Option ProducerKind
  resolved_types : List Ty
  context : Option Nat := none
deriving DecidableEq

/-- One dict layer of the `ComponentStack`: component type to cached value,
where `none` is the `UNSET` tombstone written by `__delitem__`. -/
abbrev Layer := List (Ty × Option Val)

/-- A `Context` object: its `ContextData` (`factories` as an association list
from type to factory-heap index, and the component stack as the list of
layer-heap indices, innermost first) plus the `_tokens` list of saved
previous values of the `ContextVar`. -/
structure CtxObj where
  factories : List (Ty × Nat)
  layerIds : List Nat
  tokens : List Nat
deriving DecidableEq

/-- The whole mutable state: the heap of layer dicts, the heap of `Factory`
objects, the heap of `Context` objects, the `ContextVar` value `current`,
and the allocation counter used to give fresh component instances distinct
identities. -/
structure Machine where
  layers : List Layer
  facs : List Factory
  ctxs : List CtxObj
  current : Nat
  alloc : Nat
deriving DecidableEq

/-- Dict lookup on an association list. -/
def assocGet {α β : Type} [DecidableEq α] (k : α) : List (α × β) → Option β
  | [] => none
  | (k', v) :: rest => if k' = k then some v else assocGet k rest

/-- Dict assignment: overwrite in place if the key is present (preserving
insertion order, as CPython does), else append. -/
def assocSet {α β : Type} [DecidableEq α] (k : α) (v : β) : List (α × β) → List (α × β)
  | [] => [(k, v)]
  | (k', v') :: rest => if k' = k then (k, v) :: rest else (k', v') :: assocSet k v rest

/-- `set.add`: append if absent. -/
def setAdd (t : Ty) (l : List Ty) : List Ty := if t ∈ l then l else l ++ [t]

def emptyCtx : CtxObj := ⟨[], [], []⟩

def emptyFac : Factory := ⟨none, [], none⟩

def getLayer (m : Machine) (i : Nat) : Layer := m.layers.getD i []

def getFac (m : Machine) (i : Nat) : Factory := m.facs.getD i emptyFac

def getCtx (m : Machine) (i : Nat) : CtxObj := m.ctxs.getD i emptyCtx

def setLayerM (m : Machine) (i : Nat) (L : Layer) : Machine :=
  { m with layers := m.layers.set i L }

def setFacM (m : Machine) (i : Nat) (f : Factory) : Machine :=
  { m with facs := m.facs.set i f }

def setCtxM (m : Machine) (i : Nat) (c : CtxObj) : Machine :=
  { m with ctxs := m.ctxs.set i c }

/-- `ComponentStack.__getitem__`'s layer scan: the first layer containing the
key decides; `some none` means the key was found but is the `UNSET`
tombstone (a `KeyError` that does *not* fall through to outer layers). -/
def stackLookup (m : Machine) (t : Ty) : List Nat → Option (Option Val)
  | [] => none
  | lid :: rest =>
    match assocGet t (getLayer m lid) with
    | some e => some e
    | none => stackLookup m t rest

/-- `components[t]` wrapped in the caller's `try/except KeyError`: `some v` on
a successful lookup, `none` on `KeyError` (missing everywhere or
tombstoned). -/
def storeGet (m : Machine) (cid : Nat) (t : Ty) : Option Val :=
  match stackLookup m t (getCtx m cid).layerIds with
  | some (some v) => some v
  | _ => none

/-- Write one entry into the innermost layer of context `cid`'s component
stack (`self.layer[key] = ...`); `none` writes the `UNSET` tombstone of
`__delitem__`. -/
def storeSetHead (m : Machine) (cid : Nat) (t : Ty) (e : Option Val) : Machine :=
  match (getCtx m cid).layerIds with
  | [] => m
  | lid :: _ => setLayerM m lid (assocSet t e (getLayer m lid))

/-- `ComponentStack.update`: `self.layer.update(values)`. -/
def storeUpdate (m : Machine) (cid : Nat) (kvs : List (Ty × Val)) : Machine :=
  match (getCtx m cid).layerIds with
  | [] => m
  | lid :: _ =>
    setLayerM m lid (kvs.foldl (fun L kv => assocSet kv.1 (some kv.2) L) (getLayer m lid))

/-- `Context.__enter__`: `self._tokens.append(self._current_context.set(self))`.
The token records the previous value of the `ContextVar`. -/
def enterCtx (cid : Nat) (m : Machine) : Machine :=
  let c := getCtx m cid
  { setCtxM m cid { c with tokens := m.current :: c.tokens } with current := cid }

/-- `Context.__exit__`: `self._current_context.reset(self._tokens.pop())`.
Runs on every exit path, normal or exceptional. -/
def exitCtx (cid : Nat) (m : Machine) : Machine :=
  let c := getCtx m cid
  match c.tokens with
  | [] => m
  | t :: rest => { setCtxM m cid { c with tokens := rest } with current := t }

/-- `Context.__init__(other)` for `other is not None` (the body of
`Injector.scope`): build a new context whose data is
`self.current._data.stack()` — a shallow copy of the *creation-time*
current factory table plus a component stack with one fresh empty
innermost layer sharing all existing layers by reference.  Returns the new
machine and the index of the new context. -/
def newContext (m : Machine) : Machine × Nat :=
  let cur := getCtx m m.current
  let lid := m.layers.length
  let cid := m.ctxs.length
  ({ m with
      layers := m.layers ++ [[]],
      ctxs := m.ctxs ++ [{ factories := cur.factories, layerIds := lid :: cur.layerIds,
                           tokens := [] }] },
   cid)

/-- A fresh `Injector`: the root `Context` with empty factories and a
component stack of one empty layer, installed as the `ContextVar`
default. -/
def initMachine : Machine :=
  { layers := [[]], facs := [],
    ctxs := [{ factories := [], layerIds := [0], tokens := [] }],
    current := 0, alloc := 0 }

/-- Calling a producer: returns `(isAwaitable, value)` and the machine (a
fresh construction advances the allocation counter, so distinct
constructions have distinct identities). -/
def callProducer (pk : ProducerKind) (m : Machine) : (Bool × Val) × Machine :=
  match pk with
  | .const v => ((false, v), m)
  | .fresh => ((false, m.alloc), { m with alloc := m.alloc + 1 })
  | .deferredConst v => ((true, v), m)

def updCtxFactories (m : Machine) (cid : Nat) (f : List (Ty × Nat) → List (Ty × Nat)) :
    Machine :=
  setCtxM m cid { getCtx m cid with factories := f (getCtx m cid).factories }

/-- `factory.resolved_types.add(t)` on the factory-heap entry `fid`. -/
def updFacResolved (m : Machine) (fid : Nat) (t : Ty) : Machine :=
  setFacM m fid { getFac m fid with resolved_types := setAdd t (getFac m fid).resolved_types }

/-- `Injector._register_type_factory`.  Note the source line
`factory = Factory(factory_function, {type}, self._context.current)`:
the initial `resolved_types` set is the literal `{type}` — the *builtin*
class `type` — not `{type_}`.  Returns the machine and the factory-heap
index of the new factory. -/
def registerTypeFactory (W : TypeWorld) (ty : Ty) (fn : Option ProducerKind)
    (bases overwrite_bases persistent : Bool) (m : Machine) : Machine × Nat :=
  let cur := m.current
  let fid := m.facs.length
  let fac0 : Factory :=
    { factory := fn, resolved_types := [tyType],
      context := if persistent then some cur else none }
  let m1 := { m with facs := m.facs ++ [fac0] }
  let m2 := updCtxFactories m1 cur (assocSet ty fid)
  if bases then
    ((W.mro ty).foldl
      (fun m t =>
        let ap := overwrite_bases || (assocGet t (getCtx m cur).factories).isNone
        if W.isclass t && ap then
          let mA := updFacResolved m fid t
          let mB := updCtxFactories mA cur (assocSet t fid)
          if overwrite_bases then storeSetHead mB cur t none else mB
        else m)
      m2, fid)
  else (m2, fid)

/-- `Injector._get_factory_context`: the factory's home context if set, else
the current context. -/
def getFactoryContext (m : Machine) (fac : Factory) : Nat :=
  fac.context.getD m.current

/-- `Injector.register`: register the instance's exact type (the caller
supplies `type(component)` as `compTy`), always `persistent=True`, then
enter the factory's context and write the instance under every resolved
type. -/
def register (W : TypeWorld) (compTy : Ty) (c : Val)
    (bases overwrite_bases : Bool) (m : Machine) : Machine :=
  let r := registerTypeFactory W compTy none bases overwrite_bases true m
  let fac := getFac r.1 r.2
  let home := getFactoryContext r.1 fac
  let m2 := enterCtx home r.1
  let m3 := storeUpdate m2 m2.current (fac.resolved_types.map (fun t => (t, c)))
  exitCtx home m3

/-- `Injector.register_factory`.  The source extracts the key type from the
producer itself (if it is a class) or from its return annotation; the
embedding takes that key type directly as `ty`. -/
def registerFactory (W : TypeWorld) (ty : Ty) (pk : ProducerKind)
    (bases overwrite_bases persistent : Bool) (m : Machine) : Machine :=
  (registerTypeFactory W ty (some pk) bases overwrite_bases persistent m).1

/-- Failures of the resolution operations: `unregisteredComponent` is the
`KeyError` escaping `self._context.factories[type_]`, `noProducer` the
`assert factory.factory is not None`, and `usageError` the
`assert not inspect.isawaitable(component)` of the synchronous path. -/
inductive Err where
  | unregisteredComponent (t : Ty)
  | noProducer
  | usageError
deriving DecidableEq

/-- `Injector.get_component`: component-store lookup, then factory lookup,
then produce inside `with self._get_factory_context(factory)` and cache
under every resolved type.  The `with` block's `__exit__` runs on the
exceptional path as well. -/
def getComponent (t : Ty) (m : Machine) : Except Err Val × Machine :=
  match storeGet m m.current t with
  | some v => (.ok v, m)
  | none =>
    match assocGet t (getCtx m m.current).factories with
    | none => (.error (.unregisteredComponent t), m)
    | some fid =>
      match (getFac m fid).factory with
      | none => (.error .noProducer, m)
      | some pk =>
        let home := getFactoryContext m (getFac m fid)
        let m1 := enterCtx home m
        let r := callProducer pk m1
        if r.1.1 then (.error .usageError, exitCtx home r.2)
        else
          let m3 := storeUpdate r.2 r.2.current
            ((getFac r.2 fid).resolved_types.map (fun ty => (ty, r.1.2)))
          (.ok r.1.2, exitCtx home m3)

/-- `Injector.get_component_async`: as `get_component`, but an awaitable
producer result is awaited (yielding its payload) instead of failing. -/
def getComponentAsync (t : Ty) (m : Machine) : Except Err Val × Machine :=
  match storeGet m m.current t with
  | some v => (.ok v, m)
  | none =>
    match assocGet t (getCtx m m.current).factories with
    | none => (.error (.unregisteredComponent t), m)
    | some fid =>
      match (getFac m fid).factory with
      | none => (.error .noProducer, m)
      | some pk =>
        let home := getFactoryContext m (getFac m fid)
        let m1 := enterCtx home m
        let r := callProducer pk m1
        let m3 := storeUpdate r.2 r.2.current
          ((getFac r.2 fid).resolved_types.map (fun ty => (ty, r.1.2)))
        (.ok r.1.2, exitCtx home m3)

/-- Decidable equality for `Except`, needed to settle result values by
`decide`. -/
instance {ε α : Type} [DecidableEq ε] [DecidableEq α] : DecidableEq (Except ε α) := fun x y =>
  match x, y with
  | .ok a, .ok b => if h : a = b then .isTrue (by rw [h]) else .isFalse (by simp [h])
  | .error a, .error b => if h : a = b then .isTrue (by rw [h]) else .isFalse (by simp [h])
  | .ok _, .error _ => .isFalse (by simp)
  | .error _, .ok _ => .isFalse (by simp)

/-! ## Concrete worlds used for witnesses and counterexamples -/

/-- A world in which every class is its own whole method-resolution order. -/
def Wtriv : TypeWorld := ⟨fun t => [t], fun _ => true⟩

/-! ## C1 / C2: the `resolved_types` initialisation bug

`_register_type_factory` builds `Factory(factory_function, {type}, ...)`:
the set literal `{type}` holds the *builtin* class `type`, not the key
`type_`.  Consequently the primary registered type reaches
`resolved_types` only through the `bases` loop, and only when
`overwrite_bases` is true (with `overwrite_bases=False` the primary type
was just bound in the factory table, so `type_ not in factories` is
false and the loop skips it). -/

def c1fac (bases overwrite_bases : Bool) : Factory :=
  let r := registerTypeFactory Wtriv 5 (some (.const 7)) bases overwrite_bases false initMachine
  getFac r.1 r.2

/-- C1: the spec claims every factory's `resolved_types` contains its primary
registered type for every flag combination; in the code the factory
registered for type `5` with `bases=False` (and likewise with
`bases=True, overwrite_bases=False`) has `resolved_types = {type}` — the
builtin `type` only — and does not contain `5`. -/
theorem C1_resolved_types_misses_primary :
    (c1fac false true).resolved_types = [tyType] ∧
    (c1fac true false).resolved_types = [tyType] ∧
    ¬ (5 : Ty) ∈ (c1fac false true).resolved_types ∧
    (c1fac true true).resolved_types = [tyType, 5] := by
  decide

def c2machine (bases overwrite_bases : Bool) : Machine :=
  register Wtriv 5 9 bases overwrite_bases initMachine

/-- C2: the spec claims `register(c, ...)` followed by `get_component` on the
exact type returns `c` for every flag setting; in the code, with
`bases=False` (or `bases=True, overwrite_bases=False`) the instance is
cached only under the builtin `type`, so `get_component(type(c))` falls
through to the factory and hits `assert factory.factory is not None`.
Only the default flags succeed. -/
theorem C2_register_get_fails_without_bases :
    (getComponent 5 (c2machine false true)).1 = .error .noProducer ∧
    (getComponent 5 (c2machine true false)).1 = .error .noProducer ∧
    (getComponent 5 (c2machine true true)).1 = .ok 9 := by
  decide

/-! ## C7: deferred producers -/

/-- C7: with a factory whose producer returns an awaitable,
`get_component_async` awaits, caches and returns the awaited value;
`get_component` on the same type fails with the usage assertion and
leaves the machine — in particular the component store — exactly
unchanged. -/
theorem C7_deferred_factory (T : Ty) (v : Val) (hT : T ≠ tyType) :
    (getComponent T (registerFactory Wtriv T (.deferredConst v) true true false initMachine)).1
        = .error .usageError ∧
    (getComponent T (registerFactory Wtriv T (.deferredConst v) true true false initMachine)).2
        = registerFactory Wtriv T (.deferredConst v) true true false initMachine ∧
    (getComponentAsync T
        (registerFactory Wtriv T (.deferredConst v) true true false initMachine)).1 = .ok v ∧
    storeGet (getComponentAsync T
        (registerFactory Wtriv T (.deferredConst v) true true false initMachine)).2
      ((getComponentAsync T
        (registerFactory Wtriv T (.deferredConst v) true true false initMachine)).2).current T
        = some v := by
  have hT0 : T ≠ 0 := hT
  simp [registerFactory, registerTypeFactory, getComponent, getComponentAsync, Wtriv,
    initMachine, updCtxFactories, updFacResolved, getCtx, getFac, getLayer, setCtxM,
    setFacM, setLayerM, emptyCtx, emptyFac, assocGet, assocSet, setAdd, tyType,
    storeGet, stackLookup, storeSetHead, storeUpdate, enterCtx, exitCtx,
    getFactoryContext, callProducer, hT0, Ne.symm hT0]

/-- Witness for C7 at `T = 5`, `v = 42`. -/
theorem C7_deferred_factory_witness :
    (getComponent 5 (registerFactory Wtriv 5 (.deferredConst 42) true true false initMachine)).1
        = .error .usageError ∧
    (getComponent 5 (registerFactory Wtriv 5 (.deferredConst 42) true true false initMachine)).2
        = registerFactory Wtriv 5 (.deferredConst 42) true true false initMachine ∧
    (getComponentAsync 5
        (registerFactory Wtriv 5 (.deferredConst 42) true true false initMachine)).1 = .ok 42 ∧
    storeGet (getComponentAsync 5
        (registerFactory Wtriv 5 (.deferredConst 42) true true false initMachine)).2
      ((getComponentAsync 5
        (registerFactory Wtriv 5 (.deferredConst 42) true true false initMachine)).2).current 5
        = some 42 :=
  C7_deferred_factory 5 42 (by decide)

/-! ## C4: persistent vs non-persistent caching scope -/

/-- C4: a factory registered with `persistent=True` carries its registration
context as home scope and caches resolved values there, so a value
resolved while a nested scope is active is still cached (and returned
without reconstruction) after the nested scope exits; a factory
registered with `persistent=False` caches into the scope current at
resolution time, so its cached value is gone after that scope exits and
the next resolution constructs a fresh instance. -/
theorem C4_persistent_home_scope (W : TypeWorld) (T : Ty)
    (hm : W.mro T = [T]) (hc : W.isclass T = true) (hT : T ≠ tyType) :
    (let m1 := registerFactory W T .fresh true true true initMachine
     let r := newContext m1
     let g1 := getComponent T (enterCtx r.2 r.1)
     let m4 := exitCtx r.2 g1.2
     g1.1 = .ok 0 ∧ m4.current = 0 ∧ storeGet m4 0 T = some 0 ∧
       (getComponent T m4).1 = .ok 0 ∧ ((getComponent T m4).2).alloc = 1) ∧
    (let n1 := registerFactory W T .fresh true true false initMachine
     let r := newContext n1
     let g1 := getComponent T (enterCtx r.2 r.1)
     let n4 := exitCtx r.2 g1.2
     g1.1 = .ok 0 ∧ storeGet g1.2 g1.2.current T = some 0 ∧
       storeGet n4 0 T = none ∧ (getComponent T n4).1 = .ok 1 ∧
       ((getComponent T n4).2).alloc = 2) := by
  have hT0 : T ≠ 0 := hT
  simp [registerFactory, registerTypeFactory, getComponent, newContext, initMachine,
    updCtxFactories, updFacResolved, getCtx, getFac, getLayer, setCtxM, setFacM,
    setLayerM, emptyCtx, emptyFac, assocGet, assocSet, setAdd, tyType, storeGet,
    stackLookup, storeSetHead, storeUpdate, enterCtx, exitCtx, getFactoryContext,
    callProducer, List.getD, hm, hc, hT0, Ne.symm hT0]

/-- Witness for C4 at `W = Wtriv`, `T = 5`. -/
theorem C4_persistent_home_scope_witness :
    (let m1 := registerFactory Wtriv 5 .fresh true true true initMachine
     let r := newContext m1
     let g1 := getComponent 5 (enterCtx r.2 r.1)
     let m4 := exitCtx r.2 g1.2
     g1.1 = .ok 0 ∧ m4.current = 0 ∧ storeGet m4 0 5 = some 0 ∧
       (getComponent 5 m4).1 = .ok 0 ∧ ((getComponent 5 m4).2).alloc = 1) ∧
    (let n1 := registerFactory Wtriv 5 .fresh true true false initMachine
     let r := newContext n1
     let g1 := getComponent 5 (enterCtx r.2 r.1)
     let n4 := exitCtx r.2 g1.2
     g1.1 = .ok 0 ∧ storeGet g1.2 g1.2.current 5 = some 0 ∧
       storeGet n4 0 5 = none ∧ (getComponent 5 n4).1 = .ok 1 ∧
       ((getComponent 5 n4).2).alloc = 2) :=
  C4_persistent_home_scope Wtriv 5 rfl rfl (by decide)

/-! ## C10: the MRO walk reaches every ancestor, including `object` -/

/-- A world with a common root class `1` playing the role of `object`. -/
def Wobj : TypeWorld := ⟨fun t => if t = 1 then [1] else [t, 1], fun _ => true⟩

/-- C10: base propagation walks the key type's whole method-resolution order,
so after registering unrelated components `a : A` and then `b : B` with
default flags, every common ancestor — here `O`, the model of `object`,
shared by both MROs — resolves to the later component, while each exact
type still resolves to its own instance. -/
theorem C10_object_resolves_to_latest (W : TypeWorld) (A B O : Ty) (a b : Val)
    (hmA : W.mro A = [A, O]) (hmB : W.mro B = [B, O])
    (hcA : W.isclass A = true) (hcB : W.isclass B = true) (hcO : W.isclass O = true)
    (hAB : A ≠ B) (hAO : A ≠ O) (hBO : B ≠ O)
    (hA0 : A ≠ tyType) (hB0 : B ≠ tyType) (hO0 : O ≠ tyType) :
    (getComponent O (register W B b true true (register W A a true true initMachine))).1
        = .ok b ∧
    (getComponent A (register W B b true true (register W A a true true initMachine))).1
        = .ok a ∧
    (getComponent B (register W B b true true (register W A a true true initMachine))).1
        = .ok b := by
  have hA0' : A ≠ 0 := hA0
  have hB0' : B ≠ 0 := hB0
  have hO0' : O ≠ 0 := hO0
  simp [register, registerFactory, registerTypeFactory, getComponent, initMachine,
    updCtxFactories, updFacResolved, getCtx, getFac, getLayer, setCtxM, setFacM,
    setLayerM, emptyCtx, emptyFac, assocGet, assocSet, setAdd, tyType, storeGet,
    stackLookup, storeSetHead, storeUpdate, enterCtx, exitCtx, getFactoryContext,
    callProducer, List.getD, hmA, hmB, hcA, hcB, hcO,
    hAB, Ne.symm hAB, hAO, Ne.symm hAO, hBO, Ne.symm hBO,
    hA0', Ne.symm hA0', hB0', Ne.symm hB0', hO0', Ne.symm hO0']

/-- Witness for C10 with `A = 2`, `B = 3`, `O = 1` in `Wobj`. -/
theorem C10_object_resolves_to_latest_witness :
    (getComponent 1 (register Wobj 3 30 true true (register Wobj 2 20 true true initMachine))).1
        = .ok 30 ∧
    (getComponent 2 (register Wobj 3 30 true true (register Wobj 2 20 true true initMachine))).1
        = .ok 20 ∧
    (getComponent 3 (register Wobj 3 30 true true (register Wobj 2 20 true true initMachine))).1
        = .ok 30 :=
  C10_object_resolves_to_latest Wobj 2 3 1 20 30 (by decide) (by decide) rfl rfl rfl
    (by decide) (by decide) (by decide) (by decide) (by decide) (by decide)

/-! ## C6: base propagation and overwrite semantics -/

/-- A world with two concrete classes `2` and `3` implementing the
interface `4`. -/
def Wiface : TypeWorld :=
  ⟨fun t => if t = 2 then [2, 4] else if t = 3 then [3, 4] else [t], fun _ => true⟩

/-- C6: registering a concrete type `C` whose MRO contains the interface `I`:
with `bases=True, overwrite_bases=True` the factory-table binding for `I`
moves to the new registration, the stale cached value for `I` in the
current layer is tombstoned, and the next `get_component I` yields the
new `C` instance; with `overwrite_bases=False` the existing binding and
cache for `I` are left untouched; with `bases=False` nothing is bound for
`I`, so `get_component I` fails with the unregistered-component error.
The stale state is produced by registering a factory for another
implementer `B` of `I` and resolving it once. -/
theorem C6_base_overwrite_semantics (W : TypeWorld) (C I B : Ty) (cv bv : Val)
    (hmC : W.mro C = [C, I]) (hmB : W.mro B = [B, I])
    (hcC : W.isclass C = true) (hcI : W.isclass I = true) (hcB : W.isclass B = true)
    (hCI : C ≠ I) (hCB : C ≠ B) (hIB : I ≠ B)
    (hC0 : C ≠ tyType) (hI0 : I ≠ tyType) (hB0 : B ≠ tyType) :
    (let stale := (getComponent I (registerFactory W B (.const bv) true true false
                     initMachine)).2
     let m1 := registerFactory W C (.const cv) true true false stale
     (getComponent I stale).1 = .ok bv ∧
       assocGet I (getCtx m1 m1.current).factories = some 1 ∧
       storeGet m1 m1.current I = none ∧
       (getComponent I m1).1 = .ok cv) ∧
    (let stale := (getComponent I (registerFactory W B (.const bv) true true false
                     initMachine)).2
     let m2 := registerFactory W C (.const cv) true false false stale
     assocGet I (getCtx m2 m2.current).factories = some 0 ∧
       (getComponent I m2).1 = .ok bv) ∧
    (let m3 := registerFactory W C (.const cv) false true false initMachine
     (getComponent I m3).1 = .error (.unregisteredComponent I)) := by
  have hC0' : C ≠ 0 := hC0
  have hI0' : I ≠ 0 := hI0
  have hB0' : B ≠ 0 := hB0
  simp [register, registerFactory, registerTypeFactory, getComponent, initMachine,
    updCtxFactories, updFacResolved, getCtx, getFac, getLayer, setCtxM, setFacM,
    setLayerM, emptyCtx, emptyFac, assocGet, assocSet, setAdd, tyType, storeGet,
    stackLookup, storeSetHead, storeUpdate, enterCtx, exitCtx, getFactoryContext,
    callProducer, List.getD, hmC, hmB, hcC, hcI, hcB,
    hCI, Ne.symm hCI, hCB, Ne.symm hCB, hIB, Ne.symm hIB,
    hC0', Ne.symm hC0', hI0', Ne.symm hI0', hB0', Ne.symm hB0']

/-- Witness for C6 with `C = 2`, `I = 4`, `B = 3` in `Wiface`. -/
theorem C6_base_overwrite_semantics_witness :
    (let stale := (getComponent 4 (registerFactory Wiface 3 (.const 30) true true false
                     initMachine)).2
     let m1 := registerFactory Wiface 2 (.const 20) true true false stale
     (getComponent 4 stale).1 = .ok 30 ∧
       assocGet 4 (getCtx m1 m1.current).factories = some 1 ∧
       storeGet m1 m1.current 4 = none ∧
       (getComponent 4 m1).1 = .ok 20) ∧
    (let stale := (getComponent 4 (registerFactory Wiface 3 (.const 30) true true false
                     initMachine)).2
     let m2 := registerFactory Wiface 2 (.const 20) true false false stale
     assocGet 4 (getCtx m2 m2.current).factories = some 0 ∧
       (getComponent 4 m2).1 = .ok 30) ∧
    (let m3 := registerFactory Wiface 2 (.const 20) false true false initMachine
     (getComponent 4 m3).1 = .error (.unregisteredComponent 4)) :=
  C6_base_overwrite_semantics Wiface 2 4 3 20 30 (by decide) (by decide) rfl rfl rfl
    (by decide) (by decide) (by decide) (by decide) (by decide) (by decide)

/-! ## Helper lemmas about list reads and writes -/

theorem getD_set_self {α : Type} (l : List α) (i : Nat) (a d : α) (h : i < l.length) :
    (l.set i a).getD i d = a := by
  simp [List.getD_eq_getElem?_getD, List.getElem?_set, h]

theorem getD_set_ne {α : Type} (l : List α) (i j : Nat) (a d : α) (h : i ≠ j) :
    (l.set i a).getD j d = l.getD j d := by
  simp [List.getD_eq_getElem?_getD, List.getElem?_set, h]

theorem getD_append_left {α : Type} (l1 l2 : List α) (i : Nat) (d : α) (h : i < l1.length) :
    (l1 ++ l2).getD i d = l1.getD i d := by
  simp [List.getD_eq_getElem?_getD, List.getElem?_append, h]

theorem getD_concat_self {α : Type} (l : List α) (a d : α) :
    (l ++ [a]).getD l.length d = a := by
  simp [List.getD_eq_getElem?_getD]

/-! ## C5: scope handles snapshot at creation, not at entry -/

/-- The handle is created, then a factory for type `5` is registered in the
root scope, then the handle is entered. -/
def c5handle : Machine × Nat := newContext initMachine

def c5afterReg : Machine := registerFactory Wtriv 5 (.const 7) true true false c5handle.1

def c5entered : Machine := enterCtx c5handle.2 c5afterReg

/-- C5 counterexample: at the moment the handle is entered the then-current
factory table binds type `5`, but the table the entry installs does not —
`get_component 5` inside the scope fails — because `Context.__init__`
snapshots at handle *creation* and `__enter__` merely swaps the
`ContextVar`.  This refutes the claim that every entry snapshots the
then-current Factory Table and installs a shallow copy of it. -/
theorem C5_entry_does_not_snapshot :
    assocGet 5 (getCtx c5afterReg c5afterReg.current).factories = some 0 ∧
    c5entered.current = c5handle.2 ∧
    assocGet 5 (getCtx c5entered c5entered.current).factories = none ∧
    (getComponent 5 c5entered).1 = .error (.unregisteredComponent 5) := by
  decide

/-- C5 amended: the snapshot — a shallow copy of the current factory table
plus a component store with one new empty innermost layer sharing the
existing layers — is taken once, when `scope()` creates the handle, and
the creation touches no existing state; entering the handle (each time)
merely makes it current and records an undo token, installing that same
creation-time data unchanged.  Entries are thus relative to the handle's
creation state, not to the state current at entry. -/
theorem C5_snapshot_at_creation (m m' : Machine) (h : Nat) (hh : h < m'.ctxs.length) :
    ((newContext m).2 = m.ctxs.length ∧
      getCtx (newContext m).1 (newContext m).2 =
        { factories := (getCtx m m.current).factories,
          layerIds := m.layers.length :: (getCtx m m.current).layerIds,
          tokens := [] } ∧
      getLayer (newContext m).1 m.layers.length = [] ∧
      (newContext m).1.current = m.current ∧
      (newContext m).1.facs = m.facs ∧
      (∀ i, i < m.layers.length → getLayer (newContext m).1 i = getLayer m i) ∧
      (∀ c, c < m.ctxs.length → getCtx (newContext m).1 c = getCtx m c)) ∧
    ((enterCtx h m').current = h ∧
      (enterCtx h m').layers = m'.layers ∧
      (enterCtx h m').facs = m'.facs ∧
      getCtx (enterCtx h m') h =
        { getCtx m' h with tokens := m'.current :: (getCtx m' h).tokens } ∧
      (∀ c, c ≠ h → getCtx (enterCtx h m') c = getCtx m' c)) := by
  refine ⟨⟨rfl, ?_, ?_, rfl, rfl, ?_, ?_⟩, rfl, rfl, rfl, ?_, ?_⟩
  · simp [newContext, getCtx, getD_concat_self]
  · simp [newContext, getLayer, getD_concat_self]
  · intro i hi
    exact getD_append_left _ _ _ _ hi
  · intro c hc
    exact getD_append_left _ _ _ _ hc
  · exact getD_set_self _ _ _ _ hh
  · intro c hc
    exact getD_set_ne _ _ _ _ _ (Ne.symm hc)

/-- Witness for C5 amended at a concrete machine: the handle of
`c5handle` entered on `c5afterReg`. -/
theorem C5_snapshot_at_creation_witness :
    ((newContext initMachine).2 = initMachine.ctxs.length ∧
      getCtx (newContext initMachine).1 (newContext initMachine).2 =
        { factories := (getCtx initMachine initMachine.current).factories,
          layerIds := initMachine.layers.length ::
            (getCtx initMachine initMachine.current).layerIds,
          tokens := [] } ∧
      getLayer (newContext initMachine).1 initMachine.layers.length = [] ∧
      (newContext initMachine).1.current = initMachine.current ∧
      (newContext initMachine).1.facs = initMachine.facs ∧
      (∀ i, i < initMachine.layers.length →
        getLayer (newContext initMachine).1 i = getLayer initMachine i) ∧
      (∀ c, c < initMachine.ctxs.length →
        getCtx (newContext initMachine).1 c = getCtx initMachine c)) ∧
    ((enterCtx 1 c5afterReg).current = 1 ∧
      (enterCtx 1 c5afterReg).layers = c5afterReg.layers ∧
      (enterCtx 1 c5afterReg).facs = c5afterReg.facs ∧
      getCtx (enterCtx 1 c5afterReg) 1 =
        { getCtx c5afterReg 1 with tokens := c5afterReg.current :: (getCtx c5afterReg 1).tokens } ∧
      (∀ c, c ≠ 1 → getCtx (enterCtx 1 c5afterReg) c = getCtx c5afterReg c)) :=
  C5_snapshot_at_creation initMachine c5afterReg 1 (by decide)

/-! ## C3: what exiting a scope does and does not restore

The counterexample: a *persistent* factory registered before the scope is
entered has the outer scope as home; resolving it while the scope is
active writes the cached value into the outer scope's own layer, and that
write survives the exit. -/

def c3reg : Machine := registerFactory Wtriv 5 (.const 7) true true true initMachine

def c3scope : Machine × Nat := newContext c3reg

def c3after : Machine :=
  exitCtx c3scope.2 (getComponent 5 (enterCtx c3scope.2 c3scope.1)).2

/-- C3 counterexample: with a persistent factory for type `5` registered in
the root scope, entering a nested scope, resolving `5` inside it and
exiting leaves the root scope's own layer changed — the cached value
written during the scope's lifetime is visible after exit, so the exact
pre-entry Component Store is *not* restored. -/
theorem C3_persistent_cache_survives_exit :
    getLayer c3reg 0 = [(5, none)] ∧
    getLayer c3after 0 = [(5, some 7), (tyType, some 7)] ∧
    c3after.current = c3reg.current ∧
    storeGet c3reg c3reg.current 5 = none ∧
    storeGet c3after c3after.current 5 = some 7 := by
  decide

/-! ### The frame theorem behind the amended C3

Operations performed while a scope is active: registrations (both kinds),
and resolutions through either resolution path. -/

inductive Op where
  | reg (ty : Ty) (v : Val) (bases overwrite_bases : Bool)
  | regFac (ty : Ty) (pk : ProducerKind) (bases overwrite_bases persistent : Bool)
  | get (ty : Ty)
  | getAsync (ty : Ty)

def opStep (W : TypeWorld) (op : Op) (m : Machine) : Machine :=
  match op with
  | .reg ty v b ow => register W ty v b ow m
  | .regFac ty pk b ow p => registerFactory W ty pk b ow p m
  | .get ty => (getComponent ty m).2
  | .getAsync ty => (getComponentAsync ty m).2

/-- The context a resolution of `t` at `m` would enter to cache its result,
if a factory producer would actually run. -/
def resolutionHome (t : Ty) (m : Machine) : Option Nat :=
  match storeGet m m.current t with
  | some _ => none
  | none =>
    match assocGet t (getCtx m m.current).factories with
    | none => none
    | some fid =>
      match (getFac m fid).factory with
      | none => none
      | some _ => some (getFactoryContext m (getFac m fid))

/-- An operation "leaks" when it resolves through a factory whose home
context differs from the current one — the persistent-factory caching
into an outer scope exhibited by the counterexample. -/
def opLeaks (op : Op) (m : Machine) : Bool :=
  match op with
  | .get t => (match resolutionHome t m with
               | some h => decide (h ≠ m.current)
               | none => false)
  | .getAsync t => (match resolutionHome t m with
                    | some h => decide (h ≠ m.current)
                    | none => false)
  | _ => false

def runOps (W : TypeWorld) : List Op → Machine → Machine
  | [], m => m
  | op :: ops, m => runOps W ops (opStep W op m)

def runLeakFree (W : TypeWorld) : List Op → Machine → Bool
  | [], _ => true
  | op :: ops, m => !opLeaks op m && runLeakFree W ops (opStep W op m)

/-- The invariant maintained while a scope (the context with index
`base.ctxs.length`, whose fresh innermost layer is `base.layers.length`)
is active over base machine `base`, for leak-free operation sequences:
the current context is the scope; every pre-existing context, layer and
factory object is untouched; the scope's undo token points back at the
pre-entry current context. -/
structure Inv (base m : Machine) : Prop where
  cur : m.current = base.ctxs.length
  nctx : m.ctxs.length = base.ctxs.length + 1
  nlay : m.layers.length = base.layers.length + 1
  ctxs : ∀ c, c < base.ctxs.length → getCtx m c = getCtx base c
  lays : ∀ i, i < base.layers.length → getLayer m i = getLayer base i
  facs : ∀ j, j < base.facs.length → getFac m j = getFac base j
  nfac : base.facs.length ≤ m.facs.length
  tok : (getCtx m base.ctxs.length).tokens = [base.current]
  lid : (getCtx m base.ctxs.length).layerIds =
    base.layers.length :: (getCtx base base.current).layerIds

/-- Writing the scope's own innermost layer preserves the invariant. -/
theorem Inv.setLayerTop {base m : Machine} (h : Inv base m) (Lc : Layer) :
    Inv base (setLayerM m base.layers.length Lc) := by
  refine ⟨h.cur, by simpa [setLayerM] using h.nctx, by simpa [setLayerM] using h.nlay,
    h.ctxs, ?_, h.facs, h.nfac, h.tok, h.lid⟩
  intro i hi
  have : i ≠ base.layers.length := Nat.ne_of_lt hi
  unfold getLayer setLayerM
  rw [getD_set_ne _ _ _ _ _ (Ne.symm this)]
  exact h.lays i hi

/-- Replacing the scope context's factory table (keeping its layer list and
token list) preserves the invariant. -/
theorem Inv.updFactoriesAt {base m : Machine} (h : Inv base m) (cur : Nat)
    (hc : cur = base.ctxs.length) (f : List (Ty × Nat) → List (Ty × Nat)) :
    Inv base (updCtxFactories m cur f) := by
  subst hc
  have hlt : base.ctxs.length < m.ctxs.length := by rw [h.nctx]; omega
  refine ⟨h.cur, by simpa [updCtxFactories, setCtxM] using h.nctx, h.nlay, ?_, h.lays,
    h.facs, h.nfac, ?_, ?_⟩
  · intro c hcl
    have : c ≠ base.ctxs.length := Nat.ne_of_lt hcl
    unfold updCtxFactories setCtxM getCtx
    rw [getD_set_ne _ _ _ _ _ (Ne.symm this)]
    exact h.ctxs c hcl
  · unfold updCtxFactories setCtxM getCtx
    rw [getD_set_self _ _ _ _ hlt]
    exact h.tok
  · unfold updCtxFactories setCtxM getCtx
    rw [getD_set_self _ _ _ _ hlt]
    exact h.lid

/-- Writing a factory-heap cell that did not exist before the scope was
entered preserves the invariant. -/
theorem Inv.setFacHigh {base m : Machine} (h : Inv base m) (j : Nat)
    (hj : base.facs.length ≤ j) (f : Factory) : Inv base (setFacM m j f) := by
  refine ⟨h.cur, h.nctx, h.nlay, h.ctxs, h.lays, ?_, by simpa [setFacM] using h.nfac,
    h.tok, h.lid⟩
  intro j2 hj2
  have : j ≠ j2 := by omega
  unfold setFacM getFac
  rw [getD_set_ne _ _ _ _ _ this]
  exact h.facs j2 hj2

/-- Appending a fresh factory object preserves the invariant. -/
theorem Inv.appendFac {base m : Machine} (h : Inv base m) (f : Factory) :
    Inv base { m with facs := m.facs ++ [f] } := by
  refine ⟨h.cur, h.nctx, h.nlay, h.ctxs, h.lays, ?_, ?_, h.tok, h.lid⟩
  · intro j hj
    have : j < m.facs.length := lt_of_lt_of_le hj h.nfac
    unfold getFac
    rw [getD_append_left _ _ _ _ this]
    exact h.facs j hj
  · calc base.facs.length ≤ m.facs.length := h.nfac
      _ ≤ (m.facs ++ [f]).length := by simp

/-- Writing the head layer of the scope's component stack (the branch
`storeSetHead _ cur _ _` with `cur` the scope context) preserves the
invariant. -/
theorem Inv.storeSetHeadAt {base m : Machine} (h : Inv base m) (cur : Nat)
    (hc : cur = base.ctxs.length) (t : Ty) (e : Option Val) :
    Inv base (storeSetHead m cur t e) := by
  subst hc
  unfold storeSetHead
  rw [h.lid]
  exact h.setLayerTop _

theorem set_getD_self {α : Type} (l : List α) (i : Nat) (d : α) (h : i < l.length) :
    l.set i (l.getD i d) = l := by
  apply List.ext_getElem?
  intro n
  rw [List.getElem?_set]
  by_cases hn : i = n
  · subst hn
    simp [List.getD_eq_getElem?_getD, h, List.getElem?_eq_getElem h]
  · simp [hn]

/-- Re-entering the context the machine is already in, updating the innermost
layer of its component stack, and exiting again equals writing that layer
directly (the undo token pushed by `__enter__` is popped by `__exit__`,
restoring the context object exactly); the producer may have advanced the
allocation counter in between. -/
theorem enterUpdateExit_eq (m : Machine) (n L : Nat) (lt : List Nat)
    (kvs : List (Ty × Val)) (a : Nat)
    (hc : m.current = n) (hn : n < m.ctxs.length)
    (hl : (getCtx m n).layerIds = L :: lt) :
    exitCtx n (storeUpdate { enterCtx n m with alloc := a }
        ({ enterCtx n m with alloc := a } : Machine).current kvs)
      = { setLayerM m L
            (kvs.foldl (fun Lc kv => assocSet kv.1 (some kv.2) Lc) (getLayer m L)) with
          alloc := a } := by
  have hE : ({ enterCtx n m with alloc := a } : Machine)
      = { m with
            ctxs := m.ctxs.set n { getCtx m n with tokens := n :: (getCtx m n).tokens },
            current := n, alloc := a } := by
    simp [enterCtx, setCtxM, hc]
  have hgE : getCtx ({ enterCtx n m with alloc := a } : Machine) n
      = { getCtx m n with tokens := n :: (getCtx m n).tokens } := by
    rw [hE]
    exact getD_set_self _ _ _ _ hn
  have hgEl : (getCtx ({ enterCtx n m with alloc := a } : Machine) n).layerIds = L :: lt := by
    rw [hgE]
    exact hl
  have hcurE : ({ enterCtx n m with alloc := a } : Machine).current = n := by rw [hE]
  have hU : storeUpdate ({ enterCtx n m with alloc := a } : Machine)
        ({ enterCtx n m with alloc := a } : Machine).current kvs
      = setLayerM ({ enterCtx n m with alloc := a } : Machine) L
          (kvs.foldl (fun Lc kv => assocSet kv.1 (some kv.2) Lc) (getLayer m L)) := by
    rw [hcurE]
    simp only [storeUpdate, hgEl]
    rfl
  rw [hU]
  have hgU : getCtx (setLayerM ({ enterCtx n m with alloc := a } : Machine) L
        (kvs.foldl (fun Lc kv => assocSet kv.1 (some kv.2) Lc) (getLayer m L))) n
      = { getCtx m n with tokens := n :: (getCtx m n).tokens } := hgE
  simp only [exitCtx, hgU]
  simp only [setCtxM, setLayerM, enterCtx, getCtx]
  rw [List.set_set, set_getD_self _ _ _ hn]
  simp [hc]

/-- Re-entering the context the machine is already in and exiting again, with
only the allocation counter possibly changed in between, is the identity
up to the allocation counter. -/
theorem enterExit_eq (m : Machine) (n : Nat) (a : Nat)
    (hc : m.current = n) (hn : n < m.ctxs.length) :
    exitCtx n ({ enterCtx n m with alloc := a } : Machine) = { m with alloc := a } := by
  have hgE : getCtx ({ enterCtx n m with alloc := a } : Machine) n
      = { getCtx m n with tokens := n :: (getCtx m n).tokens } := by
    have hE : ({ enterCtx n m with alloc := a } : Machine)
        = { m with
              ctxs := m.ctxs.set n { getCtx m n with tokens := n :: (getCtx m n).tokens },
              current := n, alloc := a } := by
      simp [enterCtx, setCtxM, hc]
    rw [hE]
    exact getD_set_self _ _ _ _ hn
  simp only [exitCtx, hgE]
  simp only [setCtxM, enterCtx, getCtx]
  rw [List.set_set, set_getD_self _ _ _ hn]
  simp [hc]

/-- The invariant does not mention the allocation counter. -/
theorem Inv.withAlloc {base m : Machine} (h : Inv base m) (a : Nat) :
    Inv base ({ m with alloc := a } : Machine) :=
  ⟨h.cur, h.nctx, h.nlay, h.ctxs, h.lays, h.facs, h.nfac, h.tok, h.lid⟩

/-- The with-block of a non-leaking resolution or registration: enter the
scope context itself, cache, exit. -/
theorem Inv.enterUpdateExit {base m : Machine} (h : Inv base m) (a : Nat)
    (kvs : List (Ty × Val)) :
    Inv base (exitCtx base.ctxs.length
      (storeUpdate { enterCtx base.ctxs.length m with alloc := a }
        ({ enterCtx base.ctxs.length m with alloc := a } : Machine).current kvs)) := by
  have hn : base.ctxs.length < m.ctxs.length := by rw [h.nctx]; omega
  rw [enterUpdateExit_eq m base.ctxs.length base.layers.length
    (getCtx base base.current).layerIds kvs a h.cur hn h.lid]
  exact (h.setLayerTop _).withAlloc a

/-- The with-block of a resolution that fails the awaitable assertion: the
exceptional exit still restores everything. -/
theorem Inv.enterExit {base m : Machine} (h : Inv base m) (a : Nat) :
    Inv base (exitCtx base.ctxs.length
      ({ enterCtx base.ctxs.length m with alloc := a } : Machine)) := by
  have hn : base.ctxs.length < m.ctxs.length := by rw [h.nctx]; omega
  rw [enterExit_eq m base.ctxs.length a h.cur hn]
  exact h.withAlloc a

/-- The loop body of `_register_type_factory`'s `bases` walk, with the
captured locals (`cur`, the factory cell `fid`, `overwrite_bases`) as
parameters. -/
def rtfStepFn (W : TypeWorld) (ow : Bool) (cur fid : Nat) : Machine → Ty → Machine :=
  fun mm t =>
    if W.isclass t && (ow || (assocGet t (getCtx mm cur).factories).isNone) then
      if ow then
        storeSetHead (updCtxFactories (updFacResolved mm fid t) cur (assocSet t fid))
          cur t none
      else updCtxFactories (updFacResolved mm fid t) cur (assocSet t fid)
    else mm

/-- `_register_type_factory` written with the loop body named. -/
theorem rtf_eq (W : TypeWorld) (ty : Ty) (fn : Option ProducerKind) (b ow p : Bool)
    (m : Machine) :
    registerTypeFactory W ty fn b ow p m
      = (if b then
          ((W.mro ty).foldl (rtfStepFn W ow m.current m.facs.length)
            (updCtxFactories
              { m with facs := m.facs ++
                  [{ factory := fn, resolved_types := [tyType],
                     context := if p then some m.current else none }] }
              m.current (assocSet ty m.facs.length)),
           m.facs.length)
        else
          (updCtxFactories
            { m with facs := m.facs ++
                [{ factory := fn, resolved_types := [tyType],
                   context := if p then some m.current else none }] }
            m.current (assocSet ty m.facs.length),
           m.facs.length)) := rfl

theorem facs_storeSetHead (m : Machine) (c : Nat) (t : Ty) (e : Option Val) :
    (storeSetHead m c t e).facs = m.facs := by
  unfold storeSetHead
  split <;> rfl

theorem facs_updCtxFactories (m : Machine) (c : Nat) (f : List (Ty × Nat) → List (Ty × Nat)) :
    (updCtxFactories m c f).facs = m.facs := rfl

theorem getFac_setFacM_self (m : Machine) (j : Nat) (f : Factory) (h : j < m.facs.length) :
    getFac (setFacM m j f) j = f := getD_set_self _ _ _ _ h

theorem getFac_updCtxFactories (m : Machine) (c : Nat)
    (f : List (Ty × Nat) → List (Ty × Nat)) (j : Nat) :
    getFac (updCtxFactories m c f) j = getFac m j := rfl

theorem getFac_appendSelf (m : Machine) (fac : Factory) :
    getFac { m with facs := m.facs ++ [fac] } m.facs.length = fac := by
  show (m.facs ++ [fac]).getD m.facs.length emptyFac = fac
  exact getD_concat_self _ _ _

/-- Each iteration of the `bases` loop preserves the invariant, keeps the new
factory cell in range and leaves its home context unchanged. -/
theorem rtfFold_inv (base : Machine) (W : TypeWorld) (ow : Bool) (cur fid : Nat)
    (hcur : cur = base.ctxs.length) (hfid : base.facs.length ≤ fid) :
    ∀ (ts : List Ty) (m : Machine), Inv base m → fid < m.facs.length →
      Inv base (ts.foldl (rtfStepFn W ow cur fid) m) ∧
      fid < (ts.foldl (rtfStepFn W ow cur fid) m).facs.length ∧
      (getFac (ts.foldl (rtfStepFn W ow cur fid) m) fid).context
        = (getFac m fid).context := by
  intro ts
  induction ts with
  | nil => exact fun m h hlt => ⟨h, hlt, rfl⟩
  | cons t ts ih =>
    intro m h hlt
    rw [List.foldl_cons]
    have hfacsA : (updFacResolved m fid t).facs
        = m.facs.set fid { getFac m fid with
            resolved_types := setAdd t (getFac m fid).resolved_types } := rfl
    have hstep : Inv base (rtfStepFn W ow cur fid m t) ∧
        fid < (rtfStepFn W ow cur fid m t).facs.length ∧
        (getFac (rtfStepFn W ow cur fid m t) fid).context = (getFac m fid).context := by
      unfold rtfStepFn
      by_cases h1 : (W.isclass t && (ow || (assocGet t (getCtx m cur).factories).isNone)) = true
      · rw [if_pos h1]
        have hInvA : Inv base (updFacResolved m fid t) := h.setFacHigh fid hfid _
        have hlenA : fid < (updFacResolved m fid t).facs.length := by
          rw [hfacsA]
          simpa using hlt
        have hctxA : (getFac (updFacResolved m fid t) fid).context
            = (getFac m fid).context := by
          unfold updFacResolved
          rw [getFac_setFacM_self _ _ _ hlt]
        by_cases h2 : ow = true
        · rw [if_pos h2]
          refine ⟨((hInvA.updFactoriesAt cur hcur _).storeSetHeadAt cur hcur t none), ?_, ?_⟩
          · rw [show (storeSetHead (updCtxFactories (updFacResolved m fid t) cur
                (assocSet t fid)) cur t none).facs = (updFacResolved m fid t).facs from
                facs_storeSetHead _ _ _ _]
            exact hlenA
          · show ((storeSetHead (updCtxFactories (updFacResolved m fid t) cur
                (assocSet t fid)) cur t none).facs.getD fid emptyFac).context
              = (getFac m fid).context
            rw [facs_storeSetHead]
            exact hctxA
        · rw [if_neg h2]
          exact ⟨hInvA.updFactoriesAt cur hcur _, hlenA, hctxA⟩
      · rw [if_neg h1]
        exact ⟨h, hlt, rfl⟩
    obtain ⟨hI, hlt2, hctx2⟩ := ih (rtfStepFn W ow cur fid m t) hstep.1 hstep.2.1
    exact ⟨hI, hlt2, hctx2.trans hstep.2.2⟩

/-- `_register_type_factory` preserves the invariant, and the new factory's
home context is the scope context exactly when `persistent` is set. -/
theorem Inv.rtfStep {base m : Machine} (h : Inv base m) (W : TypeWorld) (ty : Ty)
    (fn : Option ProducerKind) (b ow p : Bool) :
    Inv base (registerTypeFactory W ty fn b ow p m).1 ∧
    (getFac (registerTypeFactory W ty fn b ow p m).1
        (registerTypeFactory W ty fn b ow p m).2).context
      = (if p then some base.ctxs.length else none) := by
  have hInv1 : Inv base { m with facs := m.facs ++
      [{ factory := fn, resolved_types := [tyType],
         context := if p then some m.current else none }] } :=
    h.appendFac _
  have hInv2 : Inv base (updCtxFactories
      { m with facs := m.facs ++
          [{ factory := fn, resolved_types := [tyType],
             context := if p then some m.current else none }] }
      m.current (assocSet ty m.facs.length)) :=
    hInv1.updFactoriesAt m.current h.cur _
  have hlen2 : m.facs.length < (updCtxFactories
      { m with facs := m.facs ++
          [{ factory := fn, resolved_types := [tyType],
             context := if p then some m.current else none }] }
      m.current (assocSet ty m.facs.length)).facs.length := by
    rw [facs_updCtxFactories]
    simp
  have hctx2 : (getFac (updCtxFactories
      { m with facs := m.facs ++
          [{ factory := fn, resolved_types := [tyType],
             context := if p then some m.current else none }] }
      m.current (assocSet ty m.facs.length)) m.facs.length).context
      = (if p then some base.ctxs.length else none) := by
    rw [getFac_updCtxFactories, getFac_appendSelf]
    simp only [h.cur]
  rw [rtf_eq]
  cases b with
  | false =>
    simp only [Bool.false_eq_true, if_false]
    exact ⟨hInv2, hctx2⟩
  | true =>
    simp only [if_true]
    obtain ⟨hI, _, hctx⟩ := rtfFold_inv base W ow m.current m.facs.length h.cur h.nfac
      (W.mro ty) _ hInv2 hlen2
    exact ⟨hI, hctx.trans hctx2⟩

/-- `register` performed while the scope is active preserves the invariant:
its factory is persistent with the scope itself as home, so the caching
with-block re-enters the scope context. -/
theorem Inv.registerStep {base m : Machine} (h : Inv base m) (W : TypeWorld) (ty : Ty)
    (v : Val) (b ow : Bool) : Inv base (register W ty v b ow m) := by
  obtain ⟨hI, hctx⟩ := h.rtfStep W ty none b ow true
  have hhome : getFactoryContext (registerTypeFactory W ty none b ow true m).1
      (getFac (registerTypeFactory W ty none b ow true m).1
        (registerTypeFactory W ty none b ow true m).2) = base.ctxs.length := by
    unfold getFactoryContext
    rw [hctx]
    simp
  simp only [register]
  rw [hhome]
  exact hI.enterUpdateExit
    (enterCtx base.ctxs.length (registerTypeFactory W ty none b ow true m).1).alloc _

/-- `register_factory` performed while the scope is active preserves the
invariant (it only writes the scope's own factory table and layer). -/
theorem Inv.registerFactoryStep {base m : Machine} (h : Inv base m) (W : TypeWorld)
    (ty : Ty) (pk : ProducerKind) (b ow p : Bool) :
    Inv base (registerFactory W ty pk b ow p m) :=
  (h.rtfStep W ty (some pk) b ow p).1

/-- A non-leaking `get_component` preserves the invariant: error paths leave
the machine unchanged (up to the balanced enter/exit), and a non-leaking
resolution caches into the scope's own layer. -/
theorem Inv.getStep {base m : Machine} (h : Inv base m) (t : Ty)
    (hnl : opLeaks (.get t) m = false) : Inv base (getComponent t m).2 := by
  cases hsg : storeGet m m.current t with
  | some v =>
    simp only [getComponent, hsg]
    exact h
  | none =>
    cases hfg : assocGet t (getCtx m m.current).factories with
    | none =>
      simp only [getComponent, hsg, hfg]
      exact h
    | some fid =>
      cases hpk : (getFac m fid).factory with
      | none =>
        simp only [getComponent, hsg, hfg, hpk]
        exact h
      | some pk =>
        have hrh : resolutionHome t m = some (getFactoryContext m (getFac m fid)) := by
          simp only [resolutionHome, hsg, hfg, hpk]
        have hhome : getFactoryContext m (getFac m fid) = base.ctxs.length := by
          simp only [opLeaks, hrh] at hnl
          have := of_decide_eq_false hnl
          rw [← h.cur]
          simpa using this
        cases pk with
        | const v =>
          simp only [getComponent, hsg, hfg, hpk, callProducer, hhome]
          exact h.enterUpdateExit (enterCtx base.ctxs.length m).alloc _
        | fresh =>
          simp only [getComponent, hsg, hfg, hpk, callProducer, hhome]
          exact h.enterUpdateExit ((enterCtx base.ctxs.length m).alloc + 1) _
        | deferredConst v =>
          simp only [getComponent, hsg, hfg, hpk, callProducer, hhome]
          exact h.enterExit (enterCtx base.ctxs.length m).alloc

/-- A non-leaking `get_component_async` preserves the invariant. -/
theorem Inv.getAsyncStep {base m : Machine} (h : Inv base m) (t : Ty)
    (hnl : opLeaks (.getAsync t) m = false) : Inv base (getComponentAsync t m).2 := by
  cases hsg : storeGet m m.current t with
  | some v =>
    simp only [getComponentAsync, hsg]
    exact h
  | none =>
    cases hfg : assocGet t (getCtx m m.current).factories with
    | none =>
      simp only [getComponentAsync, hsg, hfg]
      exact h
    | some fid =>
      cases hpk : (getFac m fid).factory with
      | none =>
        simp only [getComponentAsync, hsg, hfg, hpk]
        exact h
      | some pk =>
        have hrh : resolutionHome t m = some (getFactoryContext m (getFac m fid)) := by
          simp only [resolutionHome, hsg, hfg, hpk]
        have hhome : getFactoryContext m (getFac m fid) = base.ctxs.length := by
          simp only [opLeaks, hrh] at hnl
          have := of_decide_eq_false hnl
          rw [← h.cur]
          simpa using this
        cases pk with
        | const v =>
          simp only [getComponentAsync, hsg, hfg, hpk, callProducer, hhome]
          exact h.enterUpdateExit (enterCtx base.ctxs.length m).alloc _
        | fresh =>
          simp only [getComponentAsync, hsg, hfg, hpk, callProducer, hhome]
          exact h.enterUpdateExit ((enterCtx base.ctxs.length m).alloc + 1) _
        | deferredConst v =>
          simp only [getComponentAsync, hsg, hfg, hpk, callProducer, hhome]
          exact h.enterUpdateExit (enterCtx base.ctxs.length m).alloc _

/-- Any single non-leaking operation preserves the invariant. -/
theorem Inv.opStepInv {base m : Machine} (h : Inv base m) (W : TypeWorld) (op : Op)
    (hnl : opLeaks op m = false) : Inv base (opStep W op m) := by
  cases op with
  | reg ty v b ow => exact h.registerStep W ty v b ow
  | regFac ty pk b ow p => exact h.registerFactoryStep W ty pk b ow p
  | get ty => exact h.getStep ty hnl
  | getAsync ty => exact h.getAsyncStep ty hnl

/-- A leak-free run of operations preserves the invariant. -/
theorem Inv.runOpsInv (base : Machine) (W : TypeWorld) :
    ∀ (ops : List Op) (m : Machine), Inv base m → runLeakFree W ops m = true →
      Inv base (runOps W ops m) := by
  intro ops
  induction ops with
  | nil => exact fun m h _ => h
  | cons op ops ih =>
    intro m h hlf
    have hsplit : (!opLeaks op m) = true ∧ runLeakFree W ops (opStep W op m) = true := by
      simpa [runLeakFree, Bool.and_eq_true] using hlf
    have hnl : opLeaks op m = false := by
      simpa using hsplit.1
    exact ih (opStep W op m) (h.opStepInv W op hnl) hsplit.2

/-- Entering a freshly created scope establishes the invariant. -/
theorem Inv.scopeEnter (m0 : Machine) :
    Inv m0 (enterCtx (newContext m0).2 (newContext m0).1) := by
  have hlen : m0.ctxs.length < ((newContext m0).1).ctxs.length := by
    simp [newContext]
  have hgnew : getCtx (newContext m0).1 (newContext m0).2
      = { factories := (getCtx m0 m0.current).factories,
          layerIds := m0.layers.length :: (getCtx m0 m0.current).layerIds,
          tokens := [] } := by
    show ((m0.ctxs ++ [_]).getD m0.ctxs.length emptyCtx) = _
    exact getD_concat_self _ _ _
  refine ⟨rfl, ?_, ?_, ?_, ?_, fun j hj => rfl, le_refl _, ?_, ?_⟩
  · show (((newContext m0).1.ctxs).set _ _).length = m0.ctxs.length + 1
    simp [newContext]
  · show ((newContext m0).1.layers).length = m0.layers.length + 1
    simp [newContext]
  · intro c hc
    show (((newContext m0).1.ctxs).set (newContext m0).2 _).getD c emptyCtx = getCtx m0 c
    rw [getD_set_ne _ _ _ _ _ (by exact fun he => absurd (he ▸ hc) (lt_irrefl _))]
    exact getD_append_left _ _ _ _ hc
  · intro i hi
    show ((newContext m0).1.layers).getD i [] = getLayer m0 i
    exact getD_append_left _ _ _ _ hi
  · show ((((newContext m0).1.ctxs).set m0.ctxs.length _).getD m0.ctxs.length
      emptyCtx).tokens = [m0.current]
    rw [getD_set_self _ _ _ _ hlen]
    show (newContext m0).1.current :: (getCtx (newContext m0).1 (newContext m0).2).tokens
      = [m0.current]
    rw [hgnew]
    rfl
  · show ((((newContext m0).1.ctxs).set m0.ctxs.length _).getD m0.ctxs.length
      emptyCtx).layerIds = m0.layers.length :: (getCtx m0 m0.current).layerIds
    rw [getD_set_self _ _ _ _ hlen]
    show (getCtx (newContext m0).1 (newContext m0).2).layerIds = _
    rw [hgnew]

/-- Exiting the scope context from an invariant state restores the pre-entry
current context and leaves every pre-existing context, layer and factory
object exactly as before entry. -/
theorem Inv.exitRestores {base M : Machine} (hI : Inv base M) :
    (exitCtx base.ctxs.length M).current = base.current ∧
    (∀ c, c < base.ctxs.length → getCtx (exitCtx base.ctxs.length M) c = getCtx base c) ∧
    (∀ i, i < base.layers.length → getLayer (exitCtx base.ctxs.length M) i = getLayer base i) ∧
    (∀ j, j < base.facs.length → getFac (exitCtx base.ctxs.length M) j = getFac base j) := by
  have hex : exitCtx base.ctxs.length M
      = { setCtxM M base.ctxs.length { getCtx M base.ctxs.length with tokens := [] } with
          current := base.current } := by
    simp only [exitCtx, hI.tok]
  refine ⟨by rw [hex], ?_, ?_, ?_⟩
  · intro c hc
    rw [hex]
    show ((M.ctxs.set base.ctxs.length _).getD c emptyCtx) = _
    rw [getD_set_ne _ _ _ _ _ (Nat.ne_of_gt hc)]
    exact hI.ctxs c hc
  · intro i hi
    rw [hex]
    exact hI.lays i hi
  · intro j hj
    rw [hex]
    exact hI.facs j hj

/-- Create a scope handle, enter it, run `ops` inside, exit. -/
def scopeRun (W : TypeWorld) (m0 : Machine) (ops : List Op) : Machine :=
  exitCtx (newContext m0).2 (runOps W ops (enterCtx (newContext m0).2 (newContext m0).1))

/-- C3 amended: exiting a scope restores the pre-entry current context on
every exit path, and — provided no operation inside resolved a persistent
factory whose home is an outer context — every pre-existing context
(hence the whole pre-entry Factory Table), every pre-existing component
layer (hence the whole pre-entry Component Store) and every pre-existing
factory object is exactly as before entry: registrations, scope-local
caching and tombstoning performed inside are discarded.  The leak-free
side condition is exactly what the counterexample
(persistent caching into an outer home scope) forces. -/
theorem C3_scope_exit_restores (W : TypeWorld) (m0 : Machine) (ops : List Op)
    (hlf : runLeakFree W ops (enterCtx (newContext m0).2 (newContext m0).1) = true) :
    (scopeRun W m0 ops).current = m0.current ∧
    (∀ c, c < m0.ctxs.length → getCtx (scopeRun W m0 ops) c = getCtx m0 c) ∧
    (∀ i, i < m0.layers.length → getLayer (scopeRun W m0 ops) i = getLayer m0 i) ∧
    (∀ j, j < m0.facs.length → getFac (scopeRun W m0 ops) j = getFac m0 j) :=
  (Inv.runOpsInv m0 W ops _ (Inv.scopeEnter m0) hlf).exitRestores

/-- A leak-free workload: a non-persistent factory registration, a resolution
through it, a direct component registration, a tombstoning overwrite and
a failing lookup. -/
def c3ops : List Op :=
  [.regFac 5 (.const 7) true true false, .get 5, .reg 6 9 true true,
   .reg 5 11 true true, .get 8]

/-- Witness for the amended C3 on a concrete leak-free run. -/
theorem C3_scope_exit_restores_witness :
    (scopeRun Wtriv initMachine c3ops).current = initMachine.current ∧
    (∀ c, c < initMachine.ctxs.length →
      getCtx (scopeRun Wtriv initMachine c3ops) c = getCtx initMachine c) ∧
    (∀ i, i < initMachine.layers.length →
      getLayer (scopeRun Wtriv initMachine c3ops) i = getLayer initMachine i) ∧
    (∀ j, j < initMachine.facs.length →
      getFac (scopeRun Wtriv initMachine c3ops) j = getFac initMachine j) :=
  C3_scope_exit_restores Wtriv initMachine c3ops (by decide)

/-! ## C9: task isolation

`contextvars` gives each concurrently scheduled task its own value of the
`ContextVar` (copied from the creating task at task creation), while the
objects the variable points to — layers, factories, contexts — live in the
one shared heap.  A two-task system is therefore a shared `Machine` core
plus one `current` value and one observation log per task; a scheduler
interleaves the two tasks' scripts. -/

structure TaskState where
  mach : Machine
  curA : Nat
  curB : Nat
  obsA : List (Except Err Val)
  obsB : List (Except Err Val)

inductive TOp where
  | scopeEnter
  | reg (ty : Ty) (v : Val)
  | get (ty : Ty)

/-- Run one operation in task A (`isA = true`) or task B: install the task's
own `current`, run the operation on the shared heap, store the task's new
`current` back. -/
def stepTask (W : TypeWorld) (isA : Bool) (op : TOp) (s : TaskState) : TaskState :=
  let m := { s.mach with current := if isA then s.curA else s.curB }
  match op with
  | .scopeEnter =>
    let r := newContext m
    let m2 := enterCtx r.2 r.1
    if isA then { s with mach := m2, curA := m2.current }
    else { s with mach := m2, curB := m2.current }
  | .reg ty v =>
    let m2 := register W ty v true true m
    if isA then { s with mach := m2, curA := m2.current }
    else { s with mach := m2, curB := m2.current }
  | .get ty =>
    let r := getComponent ty m
    if isA then { s with mach := r.2, curA := r.2.current, obsA := s.obsA ++ [r.1] }
    else { s with mach := r.2, curB := r.2.current, obsB := s.obsB ++ [r.1] }

/-- Interleave the two scripts according to a schedule (`true` = task A next);
when the scheduled task's script is exhausted, the other task runs, so
every schedule realises a complete merge and every merge is realised by
some schedule. -/
def mergeRun (W : TypeWorld) : List Bool → List TOp → List TOp → TaskState → TaskState
  | [], _, _, s => s
  | pick :: sch, sa, sb, s =>
    match pick, sa, sb with
    | true, op :: sa2, sb2 => mergeRun W sch sa2 sb2 (stepTask W true op s)
    | true, [], op :: sb2 => mergeRun W sch [] sb2 (stepTask W false op s)
    | false, sa2, op :: sb2 => mergeRun W sch sa2 sb2 (stepTask W false op s)
    | false, op :: sa2, [] => mergeRun W sch sa2 [] (stepTask W true op s)
    | _, [], [] => s

def c9start : TaskState := ⟨initMachine, 0, 0, [], []⟩

def c9scriptA : List TOp := [.scopeEnter, .reg 5 10, .get 5]

def c9scriptB : List TOp := [.scopeEnter, .reg 5 20, .get 5]

/-- The bits of `k` as a 6-step schedule. -/
def schBits (k : Nat) : List Bool := (List.range 6).map (fun i => k.testBit i)

/-- C9 amended, positive part: two tasks forked from the root scope, each
opening its own scope and registering a different component for the same
type `5`, observe only their own registration — under every one of the 64
schedules, hence under every interleaving of the two scripts. -/
theorem C9_scope_isolation :
    ∀ k : Fin 64,
      (mergeRun Wtriv (schBits k.val) c9scriptA c9scriptB c9start).obsA = [.ok 10] ∧
      (mergeRun Wtriv (schBits k.val) c9scriptA c9scriptB c9start).obsB = [.ok 20] := by
  decide

/-- A persistent factory for type `5` registered in the root scope before the
tasks fork. -/
def c9shared : TaskState :=
  ⟨registerFactory Wtriv 5 .fresh true true true initMachine, 0, 0, [], []⟩

/-- C9 counterexample: with a shared-ancestor persistent factory, task A's
resolution constructs instance `0` and caches it into the shared root
layer; sibling task B — despite having opened its own scope — then
observes that very instance (the allocation counter shows a single
construction), so a caching mutation performed inside one task *is*
observable from a concurrently running sibling. -/
theorem C9_shared_persistent_cache_observable :
    (mergeRun Wtriv [true, true, false, false]
      [.scopeEnter, .get 5] [.scopeEnter, .get 5] c9shared).obsA = [.ok 0] ∧
    (mergeRun Wtriv [true, true, false, false]
      [.scopeEnter, .get 5] [.scopeEnter, .get 5] c9shared).obsB = [.ok 0] ∧
    (mergeRun Wtriv [true, true, false, false]
      [.scopeEnter, .get 5] [.scopeEnter, .get 5] c9shared).mach.alloc = 1 := by
  decide

/-! ## C8: the `inject` wrapper

A function signature is a list of parameters (name, optional declared
annotation, optional default), as exposed by `inspect.signature`.  A call
supplies positional arguments and keyword arguments;
`sig.bind_partial(*args, **kwargs)` binds the first `len(args)` parameters
positionally and the keyword arguments by name. -/

structure Param where
  name : String
  annot : Option Ty := none
  default : Option Val := none
deriving DecidableEq

/-- `bind_arguments` of the source: partially bind the call, then collect
every parameter that is unbound, annotated, and whose annotation is a key
of the *current factory table* (the component store is not consulted).
Returns (bound arguments, parameters to inject with their types). -/
def bindArguments (sig : List Param) (args : List Val) (kwargs : List (String × Val))
    (m : Machine) : List (String × Val) × List (String × Ty) :=
  let bound := (sig.zip args).map (fun pv => (pv.1.name, pv.2)) ++ kwargs
  let components := sig.filterMap (fun p =>
    if (assocGet p.name bound).isSome then none
    else
      match p.annot with
      | none => none
      | some ann =>
        if (assocGet ann (getCtx m m.current).factories).isSome then some (p.name, ann)
        else none)
  (bound, components)

/-- The dict comprehension of the wrappers: resolve each selected parameter in
order through the given resolution path, threading the machine; the first
failure propagates. -/
def resolveAllWith (get : Ty → Machine → Except Err Val × Machine) :
    List (String × Ty) → Machine → Except Err (List (String × Val)) × Machine
  | [], m => (.ok [], m)
  | nt :: rest, m =>
    match get nt.2 m with
    | (.error e, m2) => (.error e, m2)
    | (.ok v, m2) =>
      match resolveAllWith get rest m2 with
      | (.error e, m3) => (.error e, m3)
      | (.ok vs, m3) => (.ok ((nt.1, v) :: vs), m3)

/-- `bound.apply_defaults()`: fill the declared default of every parameter
still missing from the bound arguments. -/
def applyDefaults (sig : List Param) (bound : List (String × Val)) : List (String × Val) :=
  sig.foldl (fun b p =>
    if (assocGet p.name b).isSome then b
    else
      match p.default with
      | some d => assocSet p.name d b
      | none => b) bound

/-- The body shared by `wrapper` and `async_wrapper`: bind, resolve the
selected components (synchronously or asynchronously, per `get`), merge
them into the bound arguments, apply defaults, and call `f` — observed
here as the per-parameter argument values `f` receives (`none` = the
parameter is left unbound). -/
def callWrapperWith (get : Ty → Machine → Except Err Val × Machine)
    (sig : List Param) (args : List Val) (kwargs : List (String × Val))
    (m : Machine) : Except Err (List (Option Val)) × Machine :=
  let bc := bindArguments sig args kwargs m
  match resolveAllWith get bc.2 m with
  | (.error e, m2) => (.error e, m2)
  | (.ok res, m2) =>
    let b1 := res.foldl (fun b nv => assocSet nv.1 nv.2 b) bc.1
    let b2 := applyDefaults sig b1
    (.ok (sig.map (fun p => assocGet p.name b2)), m2)

/-- The synchronous `wrapper` installed by `inject` on a synchronous
function: resolution through `get_component`. -/
def callSyncWrapper (sig : List Param) (args : List Val) (kwargs : List (String × Val))
    (m : Machine) : Except Err (List (Option Val)) × Machine :=
  callWrapperWith getComponent sig args kwargs m

/-- The `async_wrapper` installed by `inject` on an asynchronous function:
resolution through `get_component_async`. -/
def callAsyncWrapper (sig : List Param) (args : List Val) (kwargs : List (String × Val))
    (m : Machine) : Except Err (List (Option Val)) × Machine :=
  callWrapperWith getComponentAsync sig args kwargs m

/-! ### The C8 counterexample

A scope handle is created, then a component is registered in the root
scope: the root layer (shared with the handle) caches it, but the handle's
factory-table copy was taken earlier and does not bind it.  Inside the
scope the component is cached and resolvable, yet the wrapper does not
fill it, because `bind_arguments` consults only the factory table. -/

def c8handle : Machine × Nat := newContext initMachine

def c8inside : Machine := enterCtx c8handle.2 (register Wtriv 5 77 true true c8handle.1)

def c8sig : List Param := [{ name := "g", annot := some 5, default := none }]

/-- C8 counterexample: inside the scope, type `5` is cached in the Component
Store and `get_component 5` succeeds, but the injected wrapper leaves the
annotated parameter unbound (`none`), because the parameter-selection
step consults only the current Factory Table — refuting "…a known
component type in the current Factory Table *or already cached in the
Component Store* is filled by resolving that type". -/
theorem C8_cached_without_factory_not_injected :
    storeGet c8inside c8inside.current 5 = some 77 ∧
    (getComponent 5 c8inside).1 = .ok 77 ∧
    (bindArguments c8sig [] [] c8inside).2 = [] ∧
    (callSyncWrapper c8sig [] [] c8inside).1 = .ok [none] := by
  decide

/-! ### The amended C8 as a refinement

`specFill` renders the spec's section 4.5 fill rule (with the Component
Store clause dropped, as the counterexample forces) as a per-parameter
recursion; the theorem below proves the wrappers equal to it. -/

/-- Modelled from the spec (section 4.5), corrected per the counterexample:
walk the parameters in declaration order; a caller-supplied argument
(positional first, then keyword) is never replaced; an unbound parameter
whose declared annotation is a key of the call-time factory table `facs0`
is resolved through `get` (threading the machine, first failure
propagating); any other parameter receives its declared default (`none`
if it has none). -/
def specFill (get : Ty → Machine → Except Err Val × Machine)
    (facs0 : List (Ty × Nat)) (kwargs : List (String × Val)) :
    List Param → List Val → Machine → Except Err (List (Option Val)) × Machine
  | [], _, m => (.ok [], m)
  | _ :: sig, a :: args, m =>
    (match specFill get facs0 kwargs sig args m with
     | (.error e, m2) => (.error e, m2)
     | (.ok vs, m2) => (.ok (some a :: vs), m2))
  | p :: sig, [], m =>
    match assocGet p.name kwargs with
    | some v =>
      (match specFill get facs0 kwargs sig [] m with
       | (.error e, m2) => (.error e, m2)
       | (.ok vs, m2) => (.ok (some v :: vs), m2))
    | none =>
      match p.annot with
      | some a =>
        if (assocGet a facs0).isSome then
          match get a m with
          | (.error e, m2) => (.error e, m2)
          | (.ok v, m2) =>
            (match specFill get facs0 kwargs sig [] m2 with
             | (.error e, m3) => (.error e, m3)
             | (.ok vs, m3) => (.ok (some v :: vs), m3))
        else
          (match specFill get facs0 kwargs sig [] m with
           | (.error e, m2) => (.error e, m2)
           | (.ok vs, m2) => (.ok (p.default :: vs), m2))
      | none =>
        (match specFill get facs0 kwargs sig [] m with
         | (.error e, m2) => (.error e, m2)
         | (.ok vs, m2) => (.ok (p.default :: vs), m2))

/-- Left-biased choice on options. -/
def oor {β : Type} : Option β → Option β → Option β
  | some v, _ => some v
  | none, y => y

/-- The bound-arguments list built by `bind_partial`. -/
def boundOf (sig : List Param) (args : List Val) (kwargs : List (String × Val)) :
    List (String × Val) :=
  (sig.zip args).map (fun pv => (pv.1.name, pv.2)) ++ kwargs

/-- The parameter-selection loop of `bind_arguments`, with the factory table
abstracted. -/
def selectComponents (facs0 : List (Ty × Nat)) (sig : List Param)
    (bound : List (String × Val)) : List (String × Ty) :=
  sig.filterMap (fun p =>
    if (assocGet p.name bound).isSome then none
    else
      match p.annot with
      | none => none
      | some ann =>
        if (assocGet ann facs0).isSome then some (p.name, ann) else none)

theorem bindArguments_eq (sig : List Param) (args : List Val)
    (kwargs : List (String × Val)) (m : Machine) :
    bindArguments sig args kwargs m
      = (boundOf sig args kwargs,
         selectComponents (getCtx m m.current).factories sig (boundOf sig args kwargs)) :=
  rfl

theorem assocGet_cons_self {α β : Type} [DecidableEq α] (k : α) (v : β)
    (l : List (α × β)) : assocGet k ((k, v) :: l) = some v := by
  simp [assocGet]

theorem assocGet_cons_ne {α β : Type} [DecidableEq α] (k k2 : α) (v : β)
    (l : List (α × β)) (h : k ≠ k2) : assocGet k2 ((k, v) :: l) = assocGet k2 l := by
  simp [assocGet, h]

theorem assocGet_set_self {α β : Type} [DecidableEq α] (k : α) (v : β)
    (l : List (α × β)) : assocGet k (assocSet k v l) = some v := by
  induction l with
  | nil => simp [assocGet, assocSet]
  | cons hd tl ih =>
    by_cases hk : hd.1 = k
    · simp [assocSet, hk, assocGet]
    · simp [assocSet, hk, assocGet, ih]

theorem assocGet_set_ne {α β : Type} [DecidableEq α] (k k2 : α) (v : β)
    (l : List (α × β)) (h : k ≠ k2) :
    assocGet k2 (assocSet k v l) = assocGet k2 l := by
  induction l with
  | nil => simp [assocGet, assocSet, h]
  | cons hd tl ih =>
    by_cases hk : hd.1 = k
    · simp [assocSet, hk, assocGet, h]
    · simp [assocSet, hk, assocGet, ih]

theorem assocGet_eq_none {α β : Type} [DecidableEq α] (k : α) (l : List (α × β))
    (h : ¬ k ∈ l.map Prod.fst) : assocGet k l = none := by
  induction l with
  | nil => rfl
  | cons hd tl ih =>
    simp only [List.map_cons, List.mem_cons] at h
    push_neg at h
    simp [assocGet, Ne.symm h.1, ih h.2]

theorem oor_assoc {β : Type} (a b c : Option β) : oor (oor a b) c = oor a (oor b c) := by
  cases a <;> cases b <;> rfl

/-- Looking a key up after merging a duplicate-free update list into a base
dict: the update wins where present. -/
theorem assocGet_foldSet {α β : Type} [DecidableEq α] :
    ∀ (res : List (α × β)) (b0 : List (α × β)) (k : α),
      (res.map Prod.fst).Nodup →
      assocGet k (res.foldl (fun b nv => assocSet nv.1 nv.2 b) b0)
        = oor (assocGet k res) (assocGet k b0) := by
  intro res
  induction res with
  | nil => intro b0 k _; rfl
  | cons hd tl ih =>
    intro b0 k hnd
    rw [List.foldl_cons]
    simp only [List.map_cons, List.nodup_cons] at hnd
    rw [ih _ k hnd.2]
    by_cases hk : hd.1 = k
    · subst hk
      rw [assocGet_eq_none hd.1 tl hnd.1, assocGet_set_self, assocGet_cons_self]
      rfl
    · rw [assocGet_set_ne _ _ _ _ hk, assocGet_cons_ne _ _ _ _ hk]

theorem applyDefaults_cons (q : Param) (sig : List Param) (b : List (String × Val)) :
    applyDefaults (q :: sig) b
      = applyDefaults sig
          (if (assocGet q.name b).isSome then b
           else
             match q.default with
             | some d => assocSet q.name d b
             | none => b) := rfl

theorem assocGet_applyDefaults_not_mem :
    ∀ (sig : List Param) (b : List (String × Val)) (k : String),
      ¬ k ∈ sig.map Param.name →
      assocGet k (applyDefaults sig b) = assocGet k b := by
  intro sig
  induction sig with
  | nil => intro b k _; rfl
  | cons q sig ih =>
    intro b k hk
    simp only [List.map_cons, List.mem_cons] at hk
    push_neg at hk
    rw [applyDefaults_cons, ih _ _ hk.2]
    by_cases hb : (assocGet q.name b).isSome
    · rw [if_pos hb]
    · rw [if_neg hb]
      cases hd : q.default with
      | none => rfl
      | some d => exact assocGet_set_ne _ _ _ _ (Ne.symm hk.1)

/-- `apply_defaults` seen through a single parameter of a duplicate-free
signature: the bound value if present, else the declared default. -/
theorem assocGet_applyDefaults_self :
    ∀ (sig : List Param) (b : List (String × Val)) (p : Param),
      (sig.map Param.name).Nodup → p ∈ sig →
      assocGet p.name (applyDefaults sig b) = oor (assocGet p.name b) p.default := by
  intro sig
  induction sig with
  | nil => intro b p _ hp; cases hp
  | cons q sig ih =>
    intro b p hnd hp
    simp only [List.map_cons, List.nodup_cons] at hnd
    rcases List.mem_cons.mp hp with hpq | hp2
    · subst hpq
      rw [applyDefaults_cons, assocGet_applyDefaults_not_mem sig _ _ hnd.1]
      by_cases hb : (assocGet p.name b).isSome
      · rw [if_pos hb]
        obtain ⟨x, hx⟩ := Option.isSome_iff_exists.mp hb
        rw [hx]
        rfl
      · rw [if_neg hb]
        rw [Option.not_isSome_iff_eq_none] at hb
        rw [hb]
        cases hd : p.default with
        | none => exact hb
        | some d => rw [assocGet_set_self]; rfl
    · have hqp : q.name ≠ p.name := by
        intro he
        exact hnd.1 (he ▸ List.mem_map_of_mem Param.name hp2)
      rw [applyDefaults_cons, ih _ p hnd.2 hp2]
      by_cases hb : (assocGet q.name b).isSome
      · rw [if_pos hb]
      · rw [if_neg hb]
        cases hd : q.default with
        | none => rfl
        | some d => rw [assocGet_set_ne _ _ _ _ hqp]

/-- The decision `bind_arguments` makes for one parameter. -/
def selectFn (facs0 : List (Ty × Nat)) (bound : List (String × Val)) (p : Param) :
    Option (String × Ty) :=
  if (assocGet p.name bound).isSome then none
  else
    match p.annot with
    | none => none
    | some ann =>
      if (assocGet ann facs0).isSome then some (p.name, ann) else none

theorem selectComponents_def (facs0 : List (Ty × Nat)) (sig : List Param)
    (bound : List (String × Val)) :
    selectComponents facs0 sig bound = sig.filterMap (selectFn facs0 bound) := rfl

theorem selectFn_name (facs0 : List (Ty × Nat)) (bound : List (String × Val))
    (p : Param) (x : String × Ty) (h : selectFn facs0 bound p = some x) :
    x.1 = p.name := by
  unfold selectFn at h
  by_cases h1 : (assocGet p.name bound).isSome
  · rw [if_pos h1] at h
    cases h
  · rw [if_neg h1] at h
    cases ha : p.annot with
    | none => simp only [ha] at h; cases h
    | some ann =>
      simp only [ha] at h
      by_cases h2 : (assocGet ann facs0).isSome
      · rw [if_pos h2] at h
        cases h
        rfl
      · rw [if_neg h2] at h
        cases h

theorem selectComponents_sub (facs0 : List (Ty × Nat)) (sig : List Param)
    (bound : List (String × Val)) :
    ∀ y ∈ (selectComponents facs0 sig bound).map Prod.fst, y ∈ sig.map Param.name := by
  intro y hy
  rw [selectComponents_def, List.mem_map] at hy
  obtain ⟨x, hx, hxy⟩ := hy
  rw [List.mem_filterMap] at hx
  obtain ⟨p, hp, hf⟩ := hx
  rw [← hxy, selectFn_name facs0 bound p x hf]
  exact List.mem_map_of_mem Param.name hp

theorem selectComponents_nodup (facs0 : List (Ty × Nat)) :
    ∀ (sig : List Param) (bound : List (String × Val)),
      (sig.map Param.name).Nodup →
      ((selectComponents facs0 sig bound).map Prod.fst).Nodup := by
  intro sig
  induction sig with
  | nil => intro bound _; simp [selectComponents_def]
  | cons q sig ih =>
    intro bound hnd
    simp only [List.map_cons, List.nodup_cons] at hnd
    rw [selectComponents_def, List.filterMap_cons]
    cases hq : selectFn facs0 bound q with
    | none => exact ih bound hnd.2
    | some x =>
      rw [List.map_cons, List.nodup_cons]
      refine ⟨?_, ih bound hnd.2⟩
      rw [selectFn_name facs0 bound q x hq]
      intro hmem
      exact hnd.1 (selectComponents_sub facs0 sig bound q.name hmem)

theorem selectComponents_cons_bound (facs0 : List (Ty × Nat)) (sig : List Param)
    (k : String) (v : Val) (b : List (String × Val))
    (hk : ¬ k ∈ sig.map Param.name) :
    selectComponents facs0 sig ((k, v) :: b) = selectComponents facs0 sig b := by
  rw [selectComponents_def, selectComponents_def]
  apply List.filterMap_congr
  intro q hq
  have hne : k ≠ q.name := fun he => hk (he ▸ List.mem_map_of_mem Param.name hq)
  unfold selectFn
  rw [assocGet_cons_ne _ _ _ _ hne]

/-- On success the resolution loop returns one value per selected parameter,
in order. -/
theorem resolveAllWith_names (get : Ty → Machine → Except Err Val × Machine) :
    ∀ (comps : List (String × Ty)) (m : Machine) (res : List (String × Val)) (m2 : Machine),
      resolveAllWith get comps m = (.ok res, m2) →
      res.map Prod.fst = comps.map Prod.fst := by
  intro comps
  induction comps with
  | nil =>
    intro m res m2 h
    simp only [resolveAllWith, Prod.mk.injEq] at h
    obtain ⟨h1, _⟩ := h
    cases h1
    rfl
  | cons nt comps ih =>
    intro m res m2 h
    simp only [resolveAllWith] at h
    split at h
    · exact absurd h (by simp)
    · rename_i v mm heq
      split at h
      · exact absurd h (by simp)
      · rename_i vs m3 heq2
        simp only [Prod.mk.injEq, Except.ok.injEq] at h
        rw [← h.1, List.map_cons, List.map_cons, ih _ _ _ heq2]

/-- The wrappers, reduced to a per-parameter normal form: resolve the selected
components, then each parameter reads, in order of precedence, its
resolved value, its caller-supplied value, or its declared default. -/
theorem callWrapperWith_normal (get : Ty → Machine → Except Err Val × Machine)
    (sig : List Param) (args : List Val) (kwargs : List (String × Val)) (m : Machine)
    (hnd : (sig.map Param.name).Nodup) :
    callWrapperWith get sig args kwargs m
      = (match resolveAllWith get (bindArguments sig args kwargs m).2 m with
         | (.error e, m2) => (.error e, m2)
         | (.ok res, m2) =>
           (.ok (sig.map (fun p =>
               oor (assocGet p.name res)
                 (oor (assocGet p.name (bindArguments sig args kwargs m).1) p.default))),
            m2)) := by
  cases hres : resolveAllWith get (bindArguments sig args kwargs m).2 m with
  | mk r m2 =>
    cases r with
    | error e => simp only [callWrapperWith, hres]
    | ok res =>
      simp only [callWrapperWith, hres]
      have hnames : res.map Prod.fst = ((bindArguments sig args kwargs m).2).map Prod.fst :=
        resolveAllWith_names get _ m res m2 hres
      have hresnd : (res.map Prod.fst).Nodup := by
        rw [hnames]
        exact selectComponents_nodup _ sig _ hnd
      have hpt : ∀ p ∈ sig,
          assocGet p.name (applyDefaults sig
            (res.foldl (fun b nv => assocSet nv.1 nv.2 b) (bindArguments sig args kwargs m).1))
          = oor (assocGet p.name res)
              (oor (assocGet p.name (bindArguments sig args kwargs m).1) p.default) := by
        intro p hp
        rw [assocGet_applyDefaults_self sig _ p hnd hp, assocGet_foldSet res _ _ hresnd,
          oor_assoc]
      rw [List.map_congr_left hpt]

/-- The spec's per-parameter fill rule, reduced to the same normal form. -/
theorem specFill_normal (get : Ty → Machine → Except Err Val × Machine)
    (facs0 : List (Ty × Nat)) (kwargs : List (String × Val)) :
    ∀ (sig : List Param) (args : List Val) (m : Machine),
      (sig.map Param.name).Nodup →
      specFill get facs0 kwargs sig args m
        = (match resolveAllWith get
              (selectComponents facs0 sig (boundOf sig args kwargs)) m with
           | (.error e, m2) => (.error e, m2)
           | (.ok res, m2) =>
             (.ok (sig.map (fun p =>
                 oor (assocGet p.name res)
                   (oor (assocGet p.name (boundOf sig args kwargs)) p.default))), m2)) := by
  intro sig
  induction sig with
  | nil =>
    intro args m _
    simp [specFill, selectComponents_def, resolveAllWith]
  | cons p sig ih =>
    intro args m hnd
    simp only [List.map_cons, List.nodup_cons] at hnd
    obtain ⟨hnd1, hnd2⟩ := hnd
    have hresnone : ∀ (res : List (String × Val)) (b : List (String × Val)),
        res.map Prod.fst = (selectComponents facs0 sig b).map Prod.fst →
        assocGet p.name res = none := by
      intro res b hn
      apply assocGet_eq_none
      intro hmem
      rw [hn] at hmem
      exact hnd1 (selectComponents_sub facs0 sig b p.name hmem)
    cases args with
    | cons a args2 =>
      have hb : boundOf (p :: sig) (a :: args2) kwargs
          = (p.name, a) :: boundOf sig args2 kwargs := rfl
      have hfp : selectFn facs0 ((p.name, a) :: boundOf sig args2 kwargs) p = none := by
        unfold selectFn
        rw [assocGet_cons_self]
        rfl
      have hsel : selectComponents facs0 (p :: sig) (boundOf (p :: sig) (a :: args2) kwargs)
          = selectComponents facs0 sig (boundOf sig args2 kwargs) := by
        rw [hb, selectComponents_def, List.filterMap_cons]
        simp only [hfp]
        rw [← selectComponents_def]
        exact selectComponents_cons_bound facs0 sig p.name a _ hnd1
      simp only [specFill]
      rw [ih args2 m hnd2, hsel]
      cases hres : resolveAllWith get
          (selectComponents facs0 sig (boundOf sig args2 kwargs)) m with
      | mk r m2 =>
        cases r with
        | error e => simp only [hres]
        | ok res =>
          simp only [hres, List.map_cons]
          have hhead : oor (assocGet p.name res)
              (oor (assocGet p.name (boundOf (p :: sig) (a :: args2) kwargs)) p.default)
              = some a := by
            rw [hresnone res _ (resolveAllWith_names get _ _ _ _ hres), hb,
              assocGet_cons_self]
            rfl
          rw [hhead]
          have htail : ∀ q ∈ sig,
              oor (assocGet q.name res)
                (oor (assocGet q.name (boundOf (p :: sig) (a :: args2) kwargs)) q.default)
              = oor (assocGet q.name res)
                  (oor (assocGet q.name (boundOf sig args2 kwargs)) q.default) := by
            intro q hq
            have hne : p.name ≠ q.name :=
              fun he => hnd1 (he ▸ List.mem_map_of_mem Param.name hq)
            rw [hb, assocGet_cons_ne _ _ _ _ hne]
          rw [List.map_congr_left htail]
    | nil =>
      have hbPS : boundOf (p :: sig) [] kwargs = kwargs := rfl
      have hbS : boundOf sig [] kwargs = kwargs := by simp [boundOf]
      rw [hbPS]
      cases hkw : assocGet p.name kwargs with
      | some v =>
        have hfp : selectFn facs0 kwargs p = none := by
          unfold selectFn
          rw [hkw]
          rfl
        have hsel : selectComponents facs0 (p :: sig) kwargs
            = selectComponents facs0 sig kwargs := by
          rw [selectComponents_def, List.filterMap_cons]
          simp only [hfp]
          rfl
        simp only [specFill, hkw]
        rw [ih [] m hnd2, hbS, hsel]
        cases hres : resolveAllWith get (selectComponents facs0 sig kwargs) m with
        | mk r m2 =>
          cases r with
          | error e => simp only [hres]
          | ok res =>
            simp only [hres, List.map_cons]
            have hhead : oor (assocGet p.name res)
                (oor (assocGet p.name kwargs) p.default) = some v := by
              have hrn : assocGet p.name res = none := by
                apply hresnone res kwargs
                have := resolveAllWith_names get _ _ _ _ hres
                exact this
              rw [hrn, hkw]
              rfl
            rw [hhead]
      | none =>
        cases hann : p.annot with
        | none =>
          have hfp : selectFn facs0 kwargs p = none := by
            unfold selectFn
            rw [hkw, hann]
            rfl
          have hsel : selectComponents facs0 (p :: sig) kwargs
              = selectComponents facs0 sig kwargs := by
            rw [selectComponents_def, List.filterMap_cons]
            simp only [hfp]
            rfl
          simp only [specFill, hkw, hann]
          rw [ih [] m hnd2, hbS, hsel]
          cases hres : resolveAllWith get (selectComponents facs0 sig kwargs) m with
          | mk r m2 =>
            cases r with
            | error e => simp only [hres]
            | ok res =>
              simp only [hres, List.map_cons]
              have hhead : oor (assocGet p.name res)
                  (oor (assocGet p.name kwargs) p.default) = p.default := by
                rw [hresnone res kwargs (resolveAllWith_names get _ _ _ _ hres), hkw]
                rfl
              rw [hhead]
        | some a =>
          by_cases hin : (assocGet a facs0).isSome
          · have hfp : selectFn facs0 kwargs p = some (p.name, a) := by
              simp [selectFn, hkw, hann, hin]
            have hsel : selectComponents facs0 (p :: sig) kwargs
                = (p.name, a) :: selectComponents facs0 sig kwargs := by
              rw [selectComponents_def, List.filterMap_cons]
              simp only [hfp]
              rfl
            simp only [specFill, hkw, hann, if_pos hin]
            rw [hsel]
            cases hget : get a m with
            | mk r1 mm =>
              cases r1 with
              | error e => simp only [resolveAllWith, hget]
              | ok v =>
                simp only [resolveAllWith, hget]
                rw [ih [] mm hnd2, hbS]
                cases hrec : resolveAllWith get (selectComponents facs0 sig kwargs) mm with
                | mk r2 m3 =>
                  cases r2 with
                  | error e => simp only [hrec]
                  | ok vs =>
                    simp only [hrec, List.map_cons]
                    have hhead : oor (assocGet p.name ((p.name, v) :: vs))
                        (oor (assocGet p.name kwargs) p.default) = some v := by
                      rw [assocGet_cons_self]
                      rfl
                    rw [hhead]
                    have htail : ∀ q ∈ sig,
                        oor (assocGet q.name ((p.name, v) :: vs))
                          (oor (assocGet q.name kwargs) q.default)
                        = oor (assocGet q.name vs)
                            (oor (assocGet q.name kwargs) q.default) := by
                      intro q hq
                      have hne : p.name ≠ q.name :=
                        fun he => hnd1 (he ▸ List.mem_map_of_mem Param.name hq)
                      rw [assocGet_cons_ne _ _ _ _ hne]
                    rw [List.map_congr_left htail]
          · have hfp : selectFn facs0 kwargs p = none := by
              simp [selectFn, hkw, hann, hin]
            have hsel : selectComponents facs0 (p :: sig) kwargs
                = selectComponents facs0 sig kwargs := by
              rw [selectComponents_def, List.filterMap_cons]
              simp only [hfp]
              rfl
            simp only [specFill, hkw, hann, if_neg hin]
            rw [ih [] m hnd2, hbS, hsel]
            cases hres : resolveAllWith get (selectComponents facs0 sig kwargs) m with
            | mk r m2 =>
              cases r with
              | error e => simp only [hres]
              | ok res =>
                simp only [hres, List.map_cons]
                have hhead : oor (assocGet p.name res)
                    (oor (assocGet p.name kwargs) p.default) = p.default := by
                  rw [hresnone res kwargs (resolveAllWith_names get _ _ _ _ hres), hkw]
                  rfl
                rw [hhead]

/-- C8 amended: for a signature with distinct parameter names, a call to the
wrapper `inject` installs behaves exactly as the (corrected) spec rule:
caller-supplied arguments are never replaced; every other parameter whose
declared annotation is a key of the call-time Factory Table — and only
those — is filled by resolving that type, through the synchronous path
for a synchronous function and the asynchronous path for an asynchronous
one, in declaration order with the first failure propagating; parameters
still unbound receive their declared defaults. -/
theorem C8_inject_fill_rule (sig : List Param) (args : List Val)
    (kwargs : List (String × Val)) (m : Machine)
    (hnd : (sig.map Param.name).Nodup) :
    callSyncWrapper sig args kwargs m
      = specFill getComponent (getCtx m m.current).factories kwargs sig args m ∧
    callAsyncWrapper sig args kwargs m
      = specFill getComponentAsync (getCtx m m.current).factories kwargs sig args m :=
  ⟨(callWrapperWith_normal getComponent sig args kwargs m hnd).trans
      (specFill_normal getComponent (getCtx m m.current).factories kwargs sig args m hnd).symm,
   (callWrapperWith_normal getComponentAsync sig args kwargs m hnd).trans
      (specFill_normal getComponentAsync (getCtx m m.current).factories kwargs sig args m
        hnd).symm⟩

def c8wsig : List Param :=
  [{ name := "x", annot := none, default := none },
   { name := "g", annot := some 5, default := none },
   { name := "d", annot := none, default := some 3 }]

def c8wm : Machine := register Wtriv 5 77 true true initMachine

/-- Witness for the amended C8 on a concrete three-parameter call: one
caller-bound parameter, one injected from the registered factory table,
one defaulted. -/
theorem C8_inject_fill_rule_witness :
    (callSyncWrapper c8wsig [42] [] c8wm
        = specFill getComponent (getCtx c8wm c8wm.current).factories [] c8wsig [42] c8wm ∧
      callAsyncWrapper c8wsig [42] [] c8wm
        = specFill getComponentAsync (getCtx c8wm c8wm.current).factories [] c8wsig [42]
            c8wm) ∧
    (callSyncWrapper c8wsig [42] [] c8wm).1 = .ok [some 42, some 77, some 3] :=
  ⟨C8_inject_fill_rule c8wsig [42] [] c8wm (by decide), by decide⟩

end ComponentInjector
